import Mathlib

/-!
Verification of the RAG knowledge engine of `amt_nano`
(`amt_nano/db/vec.py` and `amt_nano/services/treatment_pathways.py`)
against its natural-language specification.

The Python code is shallowly embedded: every network effect (embedding
provider, store connection, store query, generative completion, file read)
is an oracle argument supplying that call's response, and a run produces an
explicit trace of the calls it issued.  Embedding vectors are an abstract
type parameter `V` — the code only transports them.
-/

set_option autoImplicit false

/-- A Python value as it can come back from the store driver:
strings, integers, lists, dictionaries (association lists keyed by
strings) or `None`. -/
inductive PyVal where
  | str : String → PyVal
  | int : Int → PyVal
  | list : List PyVal → PyVal
  | dict : List (String × PyVal) → PyVal
  | noneV : PyVal

/-- A parsed bulk-source record with inline text: the `{id, text}` dict of
`Vec.seed` after `str()` coercion. -/
structure SeedDoc where
  id : String
  text : String
deriving DecidableEq, Repr

/-- A parsed bulk-source record in `files` mode: the `{id, filename}` dict
read by `Vec.seed` when `files=True`. -/
structure SeedFileDoc where
  id : String
  filename : String
deriving DecidableEq, Repr

/-- One record as handed to the store by `Vec.insert`:
`{"id": f"{table}:{raw_id}", "text": ..., "embedding": ...}`. -/
structure UpsertItem (V : Type) where
  id : String
  text : String
  embedding : V
deriving DecidableEq, Repr

/-- One call issued (or log line emitted) during a run of `Vec.seed`,
`Vec.insert` or `Vec.get_context`. -/
inductive SeedEvent (V : Type) where
  /-- `AsyncSurreal(...); await db.connect()` -/
  | connect : SeedEvent V
  /-- `await db.signin(...)` -/
  | signin : SeedEvent V
  /-- `await db.use(namespace, database)` -/
  | useNs : SeedEvent V
  /-- an auxiliary `db.query` (INFO / sample SELECT / similarity SELECT) -/
  | query : SeedEvent V
  /-- `await self.client.embeddings.create(model=..., input=texts)` -/
  | embedCall : List String → SeedEvent V
  /-- the `INSERT INTO ... ON DUPLICATE KEY UPDATE` store write -/
  | upsertCall : List (UpsertItem V) → SeedEvent V
  /-- a `logger.error` line recording a failed batch -/
  | logFailure : SeedEvent V
  /-- the `[OK] Processed {len(items)} records.` success log -/
  | logOk : Nat → SeedEvent V
  /-- `await db.close()` -/
  | close : SeedEvent V
deriving DecidableEq

/-- `id.split(":")` of `Vec.insert`, character-level model of Python
`str.split` with separator `":"`. -/
def splitOnColon : List Char → List (List Char)
  | [] => [[]]
  | c :: cs =>
    match splitOnColon cs with
    | [] => [[]]
    | s :: ss => if c = ':' then [] :: s :: ss else (c :: s) :: ss

/-- `b["id"].split(":")[-1]` of `Vec.insert`: the segment after the last
colon (the whole string when there is no colon). -/
def rawKey (s : String) : String :=
  ⟨(splitOnColon s.data).getLastD []⟩

/-- `f"{self.surrealdb_table}:{raw_id}"` of `Vec.insert`. -/
def writtenId (table id : String) : String :=
  table ++ ":" ++ rawKey id

/-- One element of the `items` list built by `Vec.insert`. -/
def mkItem {V : Type} (table : String) (d : SeedDoc) (e : V) : UpsertItem V :=
  ⟨writtenId table d.id, d.text, e⟩

/-- The `items` list of `Vec.insert`: `zip(batch_dicts, embeds)` mapped to
store records (`zip` truncates to the shorter list). -/
def mkItems {V : Type} (table : String) (b : List SeedDoc) (embeds : List V) :
    List (UpsertItem V) :=
  List.zipWith (mkItem table) b embeds

/-- Python `pat in s` substring test on character lists. -/
def hasSubstr (pat : List Char) : List Char → Bool
  | [] => pat.isEmpty
  | c :: rest => pat.isPrefixOf (c :: rest) || hasSubstr pat rest

/-- The row extraction of `Vec.get_context`:
`[row["text"] for row in rows if isinstance(row, dict) and "text" in row]`. -/
def extractRows (rows : List PyVal) : List PyVal :=
  rows.filterMap fun r =>
    match r with
    | .dict d => List.lookup "text" d
    | _ => none

/-- The response-shape dispatch at the end of `Vec.get_context` (lines
414–421): a flat list is extracted directly; otherwise Python evaluates
`"result" in res` — key membership on a dict, substring containment on a
string, and a `TypeError` on any other value — and on success indexes
`res["result"]`, which is itself a `TypeError` when `res` is a string.
`.error` models an exception escaping `get_context`; `.ok none` is the
logged `return None` branch. -/
def extractContext (res : PyVal) : Except String (Option (List PyVal)) :=
  match res with
  | .list rows => .ok (some (extractRows rows))
  | .dict d =>
    match List.lookup "result" d with
    | some (.list rows) => .ok (some (extractRows rows))
    | _ => .ok none
  | .str s => if hasSubstr "result".data s.data then .error "TypeError" else .ok none
  | _ => .error "TypeError"

/-- Outcome of one batch as `Vec.insert` reports it:
`okB` is the `[OK] Processed ...` log, `failedB` any of the
`logger.error` branches (store exception caught, string-typed result,
non-dict first row, `status == "ERR"`). -/
inductive BatchResult where
  | okB : BatchResult
  | failedB : BatchResult
deriving DecidableEq, Repr

/-- Whether the store's response to the upsert makes `Vec.insert` take a
failure branch: a raised exception (caught by the `try`), a string-typed
result, a non-empty list whose first element is not a dict (the
`result[0].keys()` call raises, caught by the `try`), or a first element
with `status == "ERR"`. -/
def storeRespFails (r : Except String PyVal) : Bool :=
  match r with
  | .error _ => true
  | .ok (.str _) => true
  | .ok (.list (first :: _)) =>
    match first with
    | .dict d =>
      match List.lookup "status" d with
      | some (.str s) => s == "ERR"
      | _ => false
    | _ => true
  | .ok _ => false

/-- The `try` block of `Vec.insert` around the store write: the upsert
call is always issued; a failing response is logged and swallowed, a
passing one produces the `[OK]` log with the item count. -/
def insertStore {V : Type} (items : List (UpsertItem V)) (resp : Except String PyVal) :
    List (SeedEvent V) × BatchResult :=
  if storeRespFails resp then ([.upsertCall items, .logFailure], .failedB)
  else ([.upsertCall items, .logOk items.length], .okB)

/-- Whether building `BatchItem(**d)` raises `ValueError` for this record
(`if not id or not text`). -/
def docInvalid (d : SeedDoc) : Bool :=
  d.id == "" || d.text == ""

/-- Processing of one batch inside `Vec.seed`/`Vec.insert`, given the
embedding provider's response and the store's response for this batch.
Returns (events issued, whether an exception escaped, per-batch results
recorded).  An empty batch raises in `BatchList.__init__`; an invalid
record raises in `BatchItem.__init__`; an embedding-provider error is
raised outside any `try` and escapes; only the store write is guarded. -/
def processBatch {V : Type} (table : String) (embedResp : Except String (List V))
    (storeResp : Except String PyVal) (b : List SeedDoc) :
    List (SeedEvent V) × Bool × List BatchResult :=
  if b.isEmpty then ([], true, [])
  else if b.any docInvalid then ([], true, [])
  else
    match embedResp with
    | .error _ => ([.embedCall (b.map SeedDoc.text)], true, [])
    | .ok embeds =>
      (.embedCall (b.map SeedDoc.text) :: (insertStore (mkItems table b embeds) storeResp).1,
        false, [(insertStore (mkItems table b embeds) storeResp).2])

/-- The batching loop of `Vec.seed`: append each record to the current
batch, flush when the batch length reaches `chunk`, flush the remainder at
the end. -/
def chunkBatches (chunk : Nat) : List SeedDoc → List SeedDoc → List (List SeedDoc)
  | acc, [] => if acc.isEmpty then [] else [acc]
  | acc, d :: ds =>
    let acc' := acc ++ [d]
    if acc'.length = chunk then acc' :: chunkBatches chunk [] ds
    else chunkBatches chunk acc' ds

/-- Observable outcome of a `Vec.seed` run. -/
structure SeedOut (V : Type) where
  trace : List (SeedEvent V)
  raised : Bool
  results : List BatchResult

/-- The per-batch loop of `Vec.seed` over the already-chunked batches,
numbering batches so the `i`-th batch consumes the `i`-th oracle
responses.  An exception escaping a batch aborts the remaining batches. -/
def seedGo {V : Type} (table : String) (embedO : Nat → Except String (List V))
    (storeO : Nat → Except String PyVal) : Nat → List (List SeedDoc) → SeedOut V
  | _, [] => ⟨[], false, []⟩
  | i, b :: bs =>
    let p := processBatch table (embedO i) (storeO i) b
    if p.2.1 then ⟨p.1, true, p.2.2⟩
    else
      let rest := seedGo table embedO storeO (i + 1) bs
      ⟨p.1 ++ rest.trace, rest.raised, p.2.2 ++ rest.results⟩

/-- A full `Vec.seed` run over inline-text records: connect, sign in,
select namespace, the two INFO queries, the batch loop, and — only when no
exception escaped — the final sample SELECT.  No `db.close()` appears
anywhere in `Vec.seed`. -/
def seedRun {V : Type} (table : String) (chunk : Nat) (docs : List SeedDoc)
    (embedO : Nat → Except String (List V)) (storeO : Nat → Except String PyVal) :
    SeedOut V :=
  let g := seedGo table embedO storeO 0 (chunkBatches chunk [] docs)
  ⟨[.connect, .signin, .useNs, .query, .query] ++ g.trace ++
      (if g.raised then [] else [.query]),
    g.raised, g.results⟩

/-- `d["filename"] if root_file_path is None else f"{root_file_path}/{d['filename']}"`. -/
def resolvePath (root : Option String) (filename : String) : String :=
  match root with
  | none => filename
  | some r => r ++ "/" ++ filename

/-- The file-reading loop of a `files=True` batch in `Vec.seed`: each file
is read in order with no `try`; the first failing read raises. -/
def readBatch (fileO : String → Except String String) (root : Option String) :
    List SeedFileDoc → Except String (List SeedDoc)
  | [] => .ok []
  | d :: ds =>
    match fileO (resolvePath root d.filename) with
    | .error e => .error e
    | .ok txt =>
      match readBatch fileO root ds with
      | .error e => .error e
      | .ok rest => .ok (⟨d.id, txt⟩ :: rest)

/-- The batching loop of `Vec.seed` in `files` mode (same flushing rule as
`chunkBatches`, over `{id, filename}` records). -/
def chunkFileBatches (chunk : Nat) : List SeedFileDoc → List SeedFileDoc →
    List (List SeedFileDoc)
  | acc, [] => if acc.isEmpty then [] else [acc]
  | acc, d :: ds =>
    let acc' := acc ++ [d]
    if acc'.length = chunk then acc' :: chunkFileBatches chunk [] ds
    else chunkFileBatches chunk acc' ds

/-- The per-batch loop of a `files=True` `Vec.seed` run: each flush first
reads every file of the batch (a read failure raises and aborts the run),
then proceeds exactly as an inline batch. -/
def seedFilesGo {V : Type} (table : String) (root : Option String)
    (fileO : String → Except String String) (embedO : Nat → Except String (List V))
    (storeO : Nat → Except String PyVal) : Nat → List (List SeedFileDoc) → SeedOut V
  | _, [] => ⟨[], false, []⟩
  | i, b :: bs =>
    match readBatch fileO root b with
    | .error _ => ⟨[], true, []⟩
    | .ok ds =>
      let p := processBatch table (embedO i) (storeO i) ds
      if p.2.1 then ⟨p.1, true, p.2.2⟩
      else
        let rest := seedFilesGo table root fileO embedO storeO (i + 1) bs
        ⟨p.1 ++ rest.trace, rest.raised, p.2.2 ++ rest.results⟩

/-- A full `files=True` `Vec.seed` run. -/
def seedFilesRun {V : Type} (table : String) (chunk : Nat) (root : Option String)
    (docs : List SeedFileDoc) (fileO : String → Except String String)
    (embedO : Nat → Except String (List V)) (storeO : Nat → Except String PyVal) :
    SeedOut V :=
  let g := seedFilesGo table root fileO embedO storeO 0 (chunkFileBatches chunk [] docs)
  ⟨[.connect, .signin, .useNs, .query, .query] ++ g.trace ++
      (if g.raised then [] else [.query]),
    g.raised, g.results⟩

/-- The sizes of the embedding-provider requests appearing in a trace. -/
def embedSizes {V : Type} (tr : List (SeedEvent V)) : List Nat :=
  tr.filterMap fun e =>
    match e with
    | .embedCall ts => some ts.length
    | _ => none

/-- Number of embedding-provider calls in a trace. -/
def countEmbeds {V : Type} (tr : List (SeedEvent V)) : Nat :=
  (embedSizes tr).length

/-- Number of store upsert calls in a trace. -/
def countUpserts {V : Type} (tr : List (SeedEvent V)) : Nat :=
  (tr.filter fun e =>
    match e with
    | .upsertCall _ => true
    | _ => false).length

/-- Number of `connect` calls in a trace. -/
def countConnects {V : Type} (tr : List (SeedEvent V)) : Nat :=
  (tr.filter fun e =>
    match e with
    | .connect => true
    | _ => false).length

/-- Number of `close` calls in a trace. -/
def countCloses {V : Type} (tr : List (SeedEvent V)) : Nat :=
  (tr.filter fun e =>
    match e with
    | .close => true
    | _ => false).length

/-- Number of `logFailure` log lines in a trace. -/
def countLogFailures {V : Type} (tr : List (SeedEvent V)) : Nat :=
  (tr.filter fun e =>
    match e with
    | .logFailure => true
    | _ => false).length

/-- Observable outcome of a `Vec.get_context` run: the calls it issued and
either the value it returned (`.ok`) or the exception that escaped
(`.error`). -/
structure GCOut (V : Type) where
  trace : List (SeedEvent V)
  result : Except String (Option (List PyVal))

/-- A full `Vec.get_context` run.  The question is embedded first (an
error or an empty response list raises — `resp.data[0]`); then the store
connection is opened, signed in and scoped (each step can raise, with no
`close` on those paths); the similarity query sits in a `try` whose
`except` logs and returns `None` and whose `finally` closes the
connection; the shape dispatch (`extractContext`) runs after the
`finally`. -/
def getContextRun {V : Type} (question : String) (embedO : Except String (List V))
    (connectO signinO useO : Except String Unit) (queryO : Except String PyVal) :
    GCOut V :=
  match embedO with
  | .error e => ⟨[.embedCall [question]], .error e⟩
  | .ok [] => ⟨[.embedCall [question]], .error "IndexError"⟩
  | .ok (_ :: _) =>
    match connectO with
    | .error e => ⟨[.embedCall [question], .connect], .error e⟩
    | .ok _ =>
      match signinO with
      | .error e => ⟨[.embedCall [question], .connect, .signin], .error e⟩
      | .ok _ =>
        match useO with
        | .error e => ⟨[.embedCall [question], .connect, .signin, .useNs], .error e⟩
        | .ok _ =>
          match queryO with
          | .error _ =>
            ⟨[.embedCall [question], .connect, .signin, .useNs, .query, .close],
              .ok none⟩
          | .ok res =>
            ⟨[.embedCall [question], .connect, .signin, .useNs, .query, .close],
              extractContext res⟩

/-- The fixed fallback string of `Vec.rag_chat`. -/
def fallbackAnswer : String :=
  "I don't have enough information to answer that question."

/-- Observable outcome of a `Vec.rag_chat` run. -/
structure RagOut where
  completionCalls : Nat
  result : Except String String
deriving Repr

/-- A full `Vec.rag_chat` run: call `get_context` (its exceptions
propagate), return the fallback on a falsy context (`None` or the empty
list), otherwise issue exactly one generative-completion call with the
context and return its text (empty string for a `None` content). -/
def ragChatRun {V : Type} (question : String) (embedO : Except String (List V))
    (connectO signinO useO : Except String Unit) (queryO : Except String PyVal)
    (completionO : List PyVal → Except String (Option String)) : RagOut :=
  match (getContextRun (V := V) question embedO connectO signinO useO queryO).result with
  | .error e => ⟨0, .error e⟩
  | .ok none => ⟨0, .ok fallbackAnswer⟩
  | .ok (some []) => ⟨0, .ok fallbackAnswer⟩
  | .ok (some (c :: cs)) =>
    match completionO (c :: cs) with
    | .error e => ⟨1, .error e⟩
    | .ok none => ⟨1, .ok ""⟩
    | .ok (some a) => ⟨1, .ok a⟩

/-- A record held by the store: the two schema fields written by
`Vec.insert` plus any other fields the record may carry. -/
structure StoredRec (V : Type) where
  text : String
  embedding : V
  meta : List (String × String)
deriving DecidableEq, Repr

/-- The store's contents, keyed by record id. -/
abbrev Store (V : Type) : Type := List (String × StoredRec V)

/-- Modelled from the spec: the conflict semantics of the external store
for the statement `INSERT INTO {table} $data ON DUPLICATE KEY UPDATE
text = $after.text, embedding = $after.embedding;` issued by `Vec.insert`
(spec section 6, "Store write": replace `text` and `embedding` only).  The
store itself is not part of this repository.  A new id is appended; an
existing id has exactly its `text` and `embedding` fields replaced. -/
def upsertOne {V : Type} (s : Store V) (it : UpsertItem V) : Store V :=
  match List.lookup it.id s with
  | none => s ++ [(it.id, ⟨it.text, it.embedding, []⟩)]
  | some _ =>
    s.map fun p => if p.1 = it.id then (p.1, ⟨it.text, it.embedding, p.2.meta⟩) else p

/-- Modelled from the spec: applying one upsert statement to the whole
item list, record by record. -/
def applyUpsert {V : Type} (s : Store V) (items : List (UpsertItem V)) : Store V :=
  items.foldl upsertOne s

/-- The outcome-status expression of `find_recommendations`
(`treatment_pathways.py` lines 109–113):
`case["outcomes"][j][0] if case["outcomes"] and case["outcomes"][j] else "Unknown"`.
Python evaluates the condition first, so a non-empty `outcomes` list is
indexed at `j` inside the condition and raises `IndexError` when `j` is
out of range; an empty list or an empty `j`-th entry yields `"Unknown"`. -/
def outcomeStatus (outcomes : List (List String)) (j : Nat) : Except String String :=
  if outcomes.isEmpty then .ok "Unknown"
  else
    match outcomes[j]? with
    | none => .error "IndexError"
    | some [] => .ok "Unknown"
    | some (x :: _) => .ok x

/-- The inner loop of `find_recommendations` over one case row:
`for j, treatment in enumerate(case["treatments"])`, pairing each
treatment with its positional outcome status. -/
def processCaseAux (outcomes : List (List String)) :
    Nat → List String → Except String (List (String × String))
  | _, [] => .ok []
  | j, t :: ts =>
    match outcomeStatus outcomes j with
    | .error e => .error e
    | .ok s =>
      match processCaseAux outcomes (j + 1) ts with
      | .error e => .error e
      | .ok rest => .ok ((t, s) :: rest)

/-- Per-row processing of one hybrid-query case in `find_recommendations`:
treatments paired positionally with outcome statuses. -/
def processCase (treatments : List String) (outcomes : List (List String)) :
    Except String (List (String × String)) :=
  processCaseAux outcomes 0 treatments

/-- The positional outcome rule as the claim states it: `outcomes[j][0]`,
or `"Unknown"` when the outcomes list is empty or its `j`-th entry is
empty. -/
def expectedOutcome (outcomes : List (List String)) (j : Nat) : String :=
  if outcomes.isEmpty then "Unknown"
  else
    match outcomes.getD j [] with
    | [] => "Unknown"
    | x :: _ => x

/-! ### Helper lemmas about the split on colons -/

theorem splitOnColon_ne_nil (l : List Char) : splitOnColon l ≠ [] := by
  induction l with
  | nil => simp [splitOnColon]
  | cons c cs ih =>
    simp only [splitOnColon]
    cases h : splitOnColon cs with
    | nil => exact absurd h ih
    | cons s ss => by_cases hc : c = ':' <;> simp [hc]

theorem two_le_length_splitOnColon {l : List Char} (h : ':' ∈ l) :
    2 ≤ (splitOnColon l).length := by
  induction l with
  | nil => cases h
  | cons c cs ih =>
    simp only [splitOnColon]
    cases hs : splitOnColon cs with
    | nil => exact absurd hs (splitOnColon_ne_nil cs)
    | cons s ss =>
      by_cases hc : c = ':'
      · simp [hc]
      · have hmem : ':' ∈ cs := by
          rcases List.mem_cons.mp h with h1 | h1
          · exact absurd h1.symm hc
          · exact h1
        have h2 := ih hmem
        rw [hs] at h2
        simp only [hc, if_false]
        simpa using h2

theorem getLastD_of_ne_nil {α : Type} {l : List α} (h : l ≠ []) (a b : α) :
    l.getLastD a = l.getLastD b := by
  cases l with
  | nil => exact absurd rfl h
  | cons x xs => rw [List.getLastD_cons, List.getLastD_cons]

theorem getLastD_splitOnColon_append (xs ys : List Char) :
    (splitOnColon (xs ++ ':' :: ys)).getLastD [] = (splitOnColon ys).getLastD [] := by
  induction xs with
  | nil =>
    simp only [List.nil_append, splitOnColon]
    cases hs : splitOnColon ys with
    | nil => exact absurd hs (splitOnColon_ne_nil ys)
    | cons s ss => simp [List.getLastD_cons]
  | cons x xs ih =>
    simp only [List.cons_append, splitOnColon]
    cases hs : splitOnColon (xs ++ ':' :: ys) with
    | nil => exact absurd hs (splitOnColon_ne_nil _)
    | cons s ss =>
      have hlen : 2 ≤ (s :: ss).length := by
        rw [← hs]
        exact two_le_length_splitOnColon (by simp)
      have hss : ss ≠ [] := by
        cases ss with
        | nil => simp at hlen
        | cons t ts => simp
      rw [hs] at ih
      by_cases hx : x = ':'
      · simpa [hx, List.getLastD_cons] using ih
      · simp only [hx, if_false]
        rw [← ih]
        simp only [List.getLastD_cons]
        exact getLastD_of_ne_nil hss _ _

theorem string_data_append (s t : String) : (s ++ t).data = s.data ++ t.data := rfl

/-- Stripping behaviour of `rawKey`: prepending any prefix followed by a
colon does not change the extracted raw key. -/
theorem rawKey_prepend (pre id : String) : rawKey (pre ++ ":" ++ id) = rawKey id := by
  unfold rawKey
  congr 1
  have : (pre ++ ":" ++ id).data = pre.data ++ ':' :: id.data := by
    rw [string_data_append, string_data_append, List.append_assoc]
    rfl
  rw [this]
  exact getLastD_splitOnColon_append pre.data id.data

theorem lookup_map_update {V : Type} (id t2 : String) (e2 : V) (s : Store V) :
    ∀ r : StoredRec V, List.lookup id s = some r →
      List.lookup id
          (List.map (fun p =>
            if p.1 = id then (p.1, ({text := t2, embedding := e2, meta := p.2.meta} : StoredRec V))
            else p) s) =
        some {text := t2, embedding := e2, meta := r.meta} := by
  induction s with
  | nil =>
    intro r h
    simp at h
  | cons p s ih =>
    intro r h
    cases p with
    | mk k v =>
      by_cases hk : k = id
      · have hbe : (id == k) = true := by
          rw [beq_iff_eq]
          exact hk.symm
        simp only [List.map_cons]
        rw [if_pos (show (k, v).1 = id from hk)]
        rw [List.lookup_cons, hbe] at h
        have hv : v = r := Option.some.inj h
        rw [List.lookup_cons, hbe, hv]
      · have hbe : (id == k) = false := by
          rw [beq_eq_false_iff_ne]
          exact fun hh => hk hh.symm
        simp only [List.map_cons]
        rw [if_neg (show ¬(k, v).1 = id from hk)]
        rw [List.lookup_cons, hbe] at h
        rw [List.lookup_cons, hbe]
        exact ih r h

/-- Claim C7: the identity written to the store by `Vec.insert` is the
collection/table name prefixed onto the segment of the supplied id after
its last colon; ids differing only by a collection prefix produce the same
written identity; and re-upserting an existing identity leaves the store
holding the new text and embedding while every other field of the record
is preserved (last-write-wins on exactly those two fields). -/
theorem claim_C7_identity_upsert {V : Type} :
    (∀ (table : String) (d : SeedDoc) (e : V),
      (mkItem table d e).id = table ++ ":" ++ rawKey d.id) ∧
    (∀ (table pre id : String),
      writtenId table (pre ++ ":" ++ id) = writtenId table id) ∧
    (∀ (s : Store V) (id : String) (r : StoredRec V) (t2 : String) (e2 : V),
      List.lookup id s = some r →
      List.lookup id (applyUpsert s [⟨id, t2, e2⟩]) = some ⟨t2, e2, r.meta⟩) := by
  refine ⟨fun table d e => rfl, fun table pre id => ?_, fun s id r t2 e2 h => ?_⟩
  · unfold writtenId
    rw [rawKey_prepend]
  · unfold applyUpsert
    simp only [List.foldl_cons, List.foldl_nil]
    unfold upsertOne
    simp only [h]
    exact lookup_map_update id t2 e2 s r h


/-- Witness for C7: a store with one record `knowledge:abc` (carrying a
metadata field) re-ingested under the prefixed id `knowledge:abc` with new
text keeps only the latest text and embedding and its old metadata. -/
theorem claim_C7_witness :
    (mkItem (V := Nat) "knowledge" ⟨"knowledge:abc", "t"⟩ 7).id = "knowledge:abc" ∧
    writtenId "knowledge" "knowledge:abc" = writtenId "knowledge" "abc" ∧
    List.lookup "knowledge:abc"
        (applyUpsert [("knowledge:abc", ⟨"old", 1, [("m", "v")]⟩)]
          [⟨"knowledge:abc", "new", (2 : Nat)⟩]) =
      some ⟨"new", 2, [("m", "v")]⟩ := by
  refine ⟨?_, ?_, ?_⟩
  · rw [(claim_C7_identity_upsert (V := Nat)).1 "knowledge" ⟨"knowledge:abc", "t"⟩ 7]
    rfl
  · exact (claim_C7_identity_upsert (V := Nat)).2.1 "knowledge" "knowledge" "abc"
  · exact (claim_C7_identity_upsert (V := Nat)).2.2
      [("knowledge:abc", ⟨"old", 1, [("m", "v")]⟩)] "knowledge:abc"
      ⟨"old", 1, [("m", "v")]⟩ "new" 2 rfl

/-- Claim C3: when the embedding response carries exactly one vector per
batch text, the `i`-th item written by `Vec.insert` pairs the `i`-th
record's (prefixed) identity and text with the `i`-th response vector. -/
theorem claim_C3_positional_zip {V : Type} (table : String) (b : List SeedDoc)
    (embeds : List V) (hlen : embeds.length = b.length) :
    (mkItems table b embeds).length = b.length ∧
    ∀ (i : Nat) (d : SeedDoc) (e : V), b[i]? = some d → embeds[i]? = some e →
      (mkItems table b embeds)[i]? = some ⟨writtenId table d.id, d.text, e⟩ := by
  constructor
  · unfold mkItems
    rw [List.length_zipWith, hlen, Nat.min_self]
  · intro i d e hd he
    unfold mkItems
    rw [List.getElem?_zipWith_eq_some]
    exact ⟨d, e, hd, he, rfl⟩

/-- Witness for C3: a two-record batch with a two-vector response pairs
positionally. -/
theorem claim_C3_witness :
    (mkItems "knowledge" [⟨"k:1", "a"⟩, ⟨"k:2", "b"⟩] ([10, 20] : List Nat)).length = 2 ∧
    (mkItems "knowledge" [⟨"k:1", "a"⟩, ⟨"k:2", "b"⟩] ([10, 20] : List Nat))[1]? =
      some ⟨writtenId "knowledge" "k:2", "b", 20⟩ := by
  have h := claim_C3_positional_zip "knowledge" [⟨"k:1", "a"⟩, ⟨"k:2", "b"⟩]
    ([10, 20] : List Nat) rfl
  exact ⟨h.1, h.2 1 ⟨"k:2", "b"⟩ 20 rfl rfl⟩

/-- Claim C10: when the embedding response for a batch carries fewer
vectors than the batch has texts, `Vec.insert` silently writes only the
first `len(vectors)` records: the trace shows the embedding call, the
(truncated) upsert and a success log reporting the truncated count — no
failure log and no exception — and the written items are exactly those of
the truncated batch prefix. -/
theorem claim_C10_truncating_zip {V : Type} (table : String) (b : List SeedDoc)
    (embeds : List V) (storeResp : Except String PyVal)
    (hb : b.isEmpty = false) (hval : b.any docInvalid = false)
    (hlen : embeds.length < b.length) (hstore : storeRespFails storeResp = false) :
    processBatch table (.ok embeds) storeResp b =
      ([.embedCall (b.map SeedDoc.text), .upsertCall (mkItems table b embeds),
        .logOk (mkItems table b embeds).length], false, [.okB]) ∧
    (mkItems table b embeds).length = embeds.length ∧
    mkItems table b embeds = mkItems table (b.take embeds.length) embeds := by
  refine ⟨?_, ?_, ?_⟩
  · simp [processBatch, hb, hval, insertStore, hstore]
  · unfold mkItems
    rw [List.length_zipWith]
    exact Nat.min_eq_right (Nat.le_of_lt hlen)
  · unfold mkItems
    conv =>
      lhs
      rw [List.zipWith_eq_zipWith_take_min]
    rw [Nat.min_eq_right (Nat.le_of_lt hlen), List.take_length]

/-- Witness for C10: a three-record batch answered with two vectors writes
two items, logs success for two, and the two items cover the first two
records. -/
theorem claim_C10_witness :
    processBatch "knowledge" (.ok ([10, 20] : List Nat)) (.ok (.list []))
        [⟨"k:1", "a"⟩, ⟨"k:2", "b"⟩, ⟨"k:3", "c"⟩] =
      ([.embedCall ["a", "b", "c"],
        .upsertCall (mkItems "knowledge" [⟨"k:1", "a"⟩, ⟨"k:2", "b"⟩, ⟨"k:3", "c"⟩]
          ([10, 20] : List Nat)),
        .logOk (mkItems "knowledge" [⟨"k:1", "a"⟩, ⟨"k:2", "b"⟩, ⟨"k:3", "c"⟩]
          ([10, 20] : List Nat)).length], false, [.okB]) ∧
    (mkItems "knowledge" [⟨"k:1", "a"⟩, ⟨"k:2", "b"⟩, ⟨"k:3", "c"⟩]
      ([10, 20] : List Nat)).length = 2 := by
  have h := claim_C10_truncating_zip "knowledge"
    [⟨"k:1", "a"⟩, ⟨"k:2", "b"⟩, ⟨"k:3", "c"⟩] ([10, 20] : List Nat)
    (.ok (.list [])) rfl (by decide) (by decide) rfl
  exact ⟨h.1, h.2.1⟩

/-- Claim C4 (code bug): the flat-list shape and the `{result: [...]}`
envelope do map to the same extracted sequence, and a bare string without
the substring `"result"` is logged and mapped to `None`; but a bare string
that contains `"result"` as a substring makes `Vec.get_context` raise a
`TypeError` (Python's `"result" in res` is a substring test on strings and
`res["result"]` then raises), contradicting the intended
never-raise-on-unexpected-shape behaviour. -/
theorem claim_C4_shape_dispatch_bug :
    (∀ rows : List PyVal,
      extractContext (.list rows) = .ok (some (extractRows rows)) ∧
      extractContext (.dict [("result", .list rows)]) = .ok (some (extractRows rows))) ∧
    extractContext (.str "no result found") = .error "TypeError" ∧
    extractContext (.str "bad response") = .ok none := by
  exact ⟨fun rows => ⟨rfl, rfl⟩, rfl, rfl⟩

/-- Claim C5: a retrieval step returning zero context rows makes
`Vec.rag_chat` return exactly the fixed fallback string, with zero
generative-completion calls, as a normal (non-raising) return. -/
theorem claim_C5_empty_context_fallback {V : Type} (question : String)
    (embedO : Except String (List V)) (connectO signinO useO : Except String Unit)
    (queryO : Except String PyVal)
    (completionO : List PyVal → Except String (Option String))
    (h : (getContextRun (V := V) question embedO connectO signinO useO queryO).result =
      .ok (some [])) :
    ragChatRun question embedO connectO signinO useO queryO completionO =
      ⟨0, .ok fallbackAnswer⟩ := by
  unfold ragChatRun
  rw [h]

/-- Witness for C5: an empty collection (store returns an empty row list)
yields the fallback with zero completion calls. -/
theorem claim_C5_witness :
    ragChatRun (V := Nat) "unrelated question" (.ok [0]) (.ok ()) (.ok ()) (.ok ())
        (.ok (.list [])) (fun _ => .ok (some "a")) = ⟨0, .ok fallbackAnswer⟩ :=
  claim_C5_empty_context_fallback "unrelated question" (.ok [0]) (.ok ()) (.ok ())
    (.ok ()) (.ok (.list [])) (fun _ => .ok (some "a")) rfl

/-- Counterexample to claim C6 as stated: a store error raised during the
retrieval query does not propagate out of `Vec.rag_chat` — the run returns
the normal-looking fixed fallback string with zero completion calls,
indistinguishable from an empty collection. -/
theorem claim_C6_counterexample :
    ragChatRun (V := Nat) "q" (.ok [0]) (.ok ()) (.ok ()) (.ok ())
        (.error "ConnectionError") (fun _ => .ok (some "answer")) =
      ⟨0, .ok fallbackAnswer⟩ := rfl

/-- Claim C6 as amended: an embedding-provider error and a
synthesis-stage error do propagate to the caller of `rag_chat` as
failures; but a store error during the retrieval query is caught inside
`get_context` (which returns `None`) and `rag_chat` masks it as the fixed
fallback string. -/
theorem claim_C6_amended_error_propagation {V : Type} :
    (∀ (question e : String) (connectO signinO useO : Except String Unit)
        (queryO : Except String PyVal)
        (completionO : List PyVal → Except String (Option String)),
      (ragChatRun (V := V) question (.error e) connectO signinO useO queryO
        completionO).result = .error e) ∧
    (∀ (question e : String) (embedO : Except String (List V))
        (connectO signinO useO : Except String Unit) (queryO : Except String PyVal)
        (completionO : List PyVal → Except String (Option String))
        (c0 : PyVal) (cs : List PyVal),
      (getContextRun (V := V) question embedO connectO signinO useO queryO).result =
        .ok (some (c0 :: cs)) →
      completionO (c0 :: cs) = .error e →
      ragChatRun question embedO connectO signinO useO queryO completionO =
        ⟨1, .error e⟩) ∧
    (∀ (question e : String) (v : V) (vs : List V)
        (completionO : List PyVal → Except String (Option String)),
      ragChatRun question (.ok (v :: vs)) (.ok ()) (.ok ()) (.ok ()) (.error e)
        completionO = ⟨0, .ok fallbackAnswer⟩) := by
  refine ⟨fun _ _ _ _ _ _ _ => rfl, fun question e embedO cO sO uO qO compO c0 cs hgc hcomp => ?_,
    fun _ _ _ _ _ => rfl⟩
  unfold ragChatRun
  rw [hgc]
  simp only [hcomp]

/-- Witness for C6 (amended): concrete runs showing an embedding error
propagating, a synthesis error propagating, and a retrieval store error
being masked as the fallback. -/
theorem claim_C6_witness :
    (ragChatRun (V := Nat) "q" (.error "APIError") (.ok ()) (.ok ()) (.ok ())
      (.ok (.list [])) (fun _ => .ok (some "a"))).result = .error "APIError" ∧
    ragChatRun (V := Nat) "q" (.ok [0]) (.ok ()) (.ok ()) (.ok ())
        (.ok (.list [.dict [("text", .str "ctx")]])) (fun _ => .error "SynthError") =
      ⟨1, .error "SynthError"⟩ ∧
    ragChatRun (V := Nat) "q" (.ok [0]) (.ok ()) (.ok ()) (.ok ()) (.error "down")
        (fun _ => .ok (some "a")) = ⟨0, .ok fallbackAnswer⟩ :=
  ⟨(claim_C6_amended_error_propagation (V := Nat)).1 "q" "APIError" (.ok ()) (.ok ())
      (.ok ()) (.ok (.list [])) (fun _ => .ok (some "a")),
    (claim_C6_amended_error_propagation (V := Nat)).2.1 "q" "SynthError" (.ok [0])
      (.ok ()) (.ok ()) (.ok ()) (.ok (.list [.dict [("text", .str "ctx")]]))
      (fun _ => .error "SynthError") (.str "ctx") [] rfl rfl,
    (claim_C6_amended_error_propagation (V := Nat)).2.2 "q" "down" 0 []
      (fun _ => .ok (some "a"))⟩

theorem processCaseAux_eq (os : List (List String)) :
    ∀ (ts : List String) (j : Nat), os = [] ∨ j + ts.length ≤ os.length →
      processCaseAux os j ts =
        .ok ((ts.enumFrom j).map fun jt => (jt.2, expectedOutcome os jt.1)) := by
  intro ts
  induction ts with
  | nil =>
    intro j h
    simp [processCaseAux]
  | cons t ts ih =>
    intro j h
    rcases h with h | h
    · subst h
      simp only [processCaseAux, outcomeStatus, List.isEmpty_nil, if_true]
      rw [ih (j + 1) (Or.inl rfl)]
      simp [expectedOutcome]
    · rw [List.length_cons] at h
      have hj : j < os.length := by omega
      have hne : os.isEmpty = false := by
        cases os with
        | nil => simp at hj
        | cons o os' => rfl
      have hsome : os[j]? = some os[j] := List.getElem?_eq_getElem hj
      simp only [processCaseAux, outcomeStatus, hne, Bool.false_eq_true, if_false, hsome]
      rw [ih (j + 1) (Or.inr (by omega))]
      simp only [List.enumFrom_cons, List.map_cons]
      cases hv : os[j] with
      | nil => simp [expectedOutcome, hne, hsome, hv]
      | cons x xs => simp [expectedOutcome, hne, hsome, hv]

/-- Counterexample to claim C9 as stated: a case row with two treatments
but a single (non-empty) outcomes entry raises `IndexError` when the
condition evaluates `case["outcomes"][1]`. -/
theorem claim_C9_counterexample :
    processCase ["a", "b"] [["ok"]] = .error "IndexError" := rfl

/-- Claim C9 as amended: per-row processing of `find_recommendations`
pairs the treatment at index `j` with `outcomes[j][0]` (or `"Unknown"`
when the outcomes list is empty or its `j`-th entry is empty), and it
never raises provided the outcomes list is empty or at least as long as
the treatments list; a row with no treatments is processed to an empty
pairing without failing.  (With a non-empty outcomes list shorter than the
treatments list, the positional indexing raises `IndexError`.) -/
theorem claim_C9_amended_outcome_pairing :
    (∀ os : List (List String), processCase [] os = .ok []) ∧
    (∀ (ts : List String) (os : List (List String)),
      os = [] ∨ ts.length ≤ os.length →
      processCase ts os =
        .ok (ts.enum.map fun jt => (jt.2, expectedOutcome os jt.1))) := by
  constructor
  · intro os
    rfl
  · intro ts os h
    unfold processCase
    rw [processCaseAux_eq os ts 0 (by
      rcases h with h1 | h1
      · exact Or.inl h1
      · exact Or.inr (by omega))]
    rfl

/-- Witness for C9 (amended): two treatments with two outcome entries,
the second empty, pair to the first status and `"Unknown"`. -/
theorem claim_C9_witness :
    processCase ["a", "b"] [["x"], []] = .ok [("a", "x"), ("b", "Unknown")] := by
  have h := claim_C9_amended_outcome_pairing.2 ["a", "b"] [["x"], []]
    (Or.inr (by decide))
  exact h

/-! ### Batch-size arithmetic for the seeding loop -/

/-- The list of batch lengths produced by flushing every `c` records with
a final partial flush: `⌈m/c⌉` entries, all equal to `c` except a last
entry of `m mod-to-c` records. -/
def batchSizes (c m : Nat) : List Nat :=
  if m = 0 then [] else List.replicate ((m - 1) / c) c ++ [m - (m - 1) / c * c]

theorem batchSizes_cons (c n : Nat) (hc : 0 < c) :
    c :: batchSizes c n = batchSizes c (c + n) := by
  unfold batchSizes
  by_cases hn : n = 0
  · subst hn
    rw [if_pos rfl, if_neg (by omega)]
    have h1 : (c + 0 - 1) / c = 0 := Nat.div_eq_of_lt (by omega)
    rw [h1]
    simp
  · rw [if_neg hn, if_neg (by omega)]
    have h1 : c + n - 1 = n - 1 + c := by omega
    rw [h1, Nat.add_div_right _ hc]
    have h3 : c + n - ((n - 1) / c + 1) * c = n - (n - 1) / c * c := by
      rw [Nat.succ_mul]
      omega
    rw [h3, List.replicate_succ, List.cons_append]

theorem length_batchSizes (c : Nat) (hc : 0 < c) (n : Nat) :
    (batchSizes c n).length = (n + c - 1) / c := by
  unfold batchSizes
  by_cases hn : n = 0
  · subst hn
    rw [if_pos rfl]
    symm
    exact Nat.div_eq_of_lt (by omega)
  · rw [if_neg hn]
    simp only [List.length_append, List.length_replicate, List.length_cons,
      List.length_nil]
    have h1 : n + c - 1 = n - 1 + c := by omega
    rw [h1, Nat.add_div_right _ hc]

theorem batchSizes_eq_replicate (c n : Nat) (hc : 0 < c) (hn : 0 < n) :
    batchSizes c n =
      List.replicate ((n + c - 1) / c - 1) c ++ [n - ((n + c - 1) / c - 1) * c] := by
  have h1 : (n + c - 1) / c = (n - 1) / c + 1 := by
    rw [show n + c - 1 = n - 1 + c by omega, Nat.add_div_right _ hc]
  unfold batchSizes
  rw [if_neg (by omega), h1]
  simp

theorem map_length_chunkBatches (c : Nat) (hc : 0 < c) :
    ∀ (ds acc : List SeedDoc), acc.length < c →
      (chunkBatches c acc ds).map List.length = batchSizes c (acc.length + ds.length) := by
  intro ds
  induction ds with
  | nil =>
    intro acc ha
    cases acc with
    | nil => simp [chunkBatches, batchSizes]
    | cons a as =>
      simp only [chunkBatches, List.isEmpty_cons, Bool.false_eq_true, if_false,
        List.map_cons, List.map_nil, List.length_nil, Nat.add_zero]
      unfold batchSizes
      rw [if_neg (by simp)]
      have h0 : ((a :: as).length - 1) / c = 0 := by
        refine Nat.div_eq_of_lt ?_
        simp only [List.length_cons] at ha ⊢
        omega
      rw [h0]
      simp
  | cons d ds ih =>
    intro acc ha
    simp only [chunkBatches]
    by_cases hl : (acc ++ [d]).length = c
    · rw [if_pos hl]
      simp only [List.map_cons]
      rw [ih [] (by simpa using hc), hl]
      simp only [List.length_nil, Nat.zero_add]
      have h2 : acc.length + (d :: ds).length = c + ds.length := by
        simp only [List.length_append, List.length_cons, List.length_nil] at hl ⊢
        omega
      rw [h2]
      exact batchSizes_cons c ds.length hc
    · rw [if_neg hl]
      rw [ih (acc ++ [d]) (by
        simp only [List.length_append, List.length_cons, List.length_nil] at hl ⊢
        omega)]
      congr 1
      simp only [List.length_append, List.length_cons, List.length_nil]
      omega

theorem chunkBatches_flatten (c : Nat) :
    ∀ (ds acc : List SeedDoc), (chunkBatches c acc ds).flatten = acc ++ ds := by
  intro ds
  induction ds with
  | nil =>
    intro acc
    cases acc with
    | nil => simp [chunkBatches]
    | cons a as => simp [chunkBatches]
  | cons d ds ih =>
    intro acc
    simp only [chunkBatches]
    by_cases hl : (acc ++ [d]).length = c
    · rw [if_pos hl]
      simp [ih]
    · rw [if_neg hl]
      rw [ih (acc ++ [d])]
      simp

theorem ne_nil_of_mem_chunkBatches (c : Nat) :
    ∀ (ds acc : List SeedDoc) (b : List SeedDoc), b ∈ chunkBatches c acc ds → b ≠ [] := by
  intro ds
  induction ds with
  | nil =>
    intro acc b hb
    cases acc with
    | nil => simp [chunkBatches] at hb
    | cons a as =>
      simp [chunkBatches] at hb
      subst hb
      simp
  | cons d ds ih =>
    intro acc b hb
    simp only [chunkBatches] at hb
    by_cases hl : (acc ++ [d]).length = c
    · rw [if_pos hl] at hb
      rcases List.mem_cons.mp hb with h | h
      · subst h
        simp
      · exact ih [] b h
    · rw [if_neg hl] at hb
      exact ih (acc ++ [d]) b hb

theorem mem_docs_of_mem_chunkBatches (c : Nat) (ds : List SeedDoc)
    (b : List SeedDoc) (d : SeedDoc) (hb : b ∈ chunkBatches c [] ds) (hd : d ∈ b) :
    d ∈ ds := by
  have h := chunkBatches_flatten c ds []
  rw [List.nil_append] at h
  rw [← h]
  exact List.mem_flatten.mpr ⟨b, hb, hd⟩

/-! ### Counting lemmas over traces -/

theorem embedSizes_append {V : Type} (t1 t2 : List (SeedEvent V)) :
    embedSizes (t1 ++ t2) = embedSizes t1 ++ embedSizes t2 := by
  simp [embedSizes]

theorem countUpserts_append {V : Type} (t1 t2 : List (SeedEvent V)) :
    countUpserts (t1 ++ t2) = countUpserts t1 + countUpserts t2 := by
  simp [countUpserts]

theorem countConnects_append {V : Type} (t1 t2 : List (SeedEvent V)) :
    countConnects (t1 ++ t2) = countConnects t1 + countConnects t2 := by
  simp [countConnects]

theorem countCloses_append {V : Type} (t1 t2 : List (SeedEvent V)) :
    countCloses (t1 ++ t2) = countCloses t1 + countCloses t2 := by
  simp [countCloses]

theorem insertStore_events {V : Type} (items : List (UpsertItem V))
    (resp : Except String PyVal) :
    embedSizes (insertStore items resp).1 = [] ∧
    countUpserts (insertStore items resp).1 = 1 ∧
    countConnects (insertStore items resp).1 = 0 ∧
    countCloses (insertStore items resp).1 = 0 := by
  unfold insertStore
  split
  · exact ⟨rfl, rfl, rfl, rfl⟩
  · exact ⟨rfl, rfl, rfl, rfl⟩

theorem insertStore_result {V : Type} (items : List (UpsertItem V))
    (resp : Except String PyVal) :
    (insertStore items resp).2 =
      if storeRespFails resp then BatchResult.failedB else BatchResult.okB := by
  unfold insertStore
  split
  · simp_all
  · simp_all

theorem countEmbeds_def {V : Type} (tr : List (SeedEvent V)) :
    countEmbeds tr = (embedSizes tr).length := rfl

theorem countEmbeds_append {V : Type} (t1 t2 : List (SeedEvent V)) :
    countEmbeds (t1 ++ t2) = countEmbeds t1 + countEmbeds t2 := by
  simp [countEmbeds_def, embedSizes_append]

theorem embedSizes_cons_embedCall {V : Type} (ts : List String)
    (tr : List (SeedEvent V)) :
    embedSizes (.embedCall ts :: tr) = ts.length :: embedSizes tr := rfl

theorem countUpserts_cons_embedCall {V : Type} (ts : List String)
    (tr : List (SeedEvent V)) :
    countUpserts (.embedCall ts :: tr) = countUpserts tr := rfl

theorem countEmbeds_cons_embedCall {V : Type} (ts : List String)
    (tr : List (SeedEvent V)) :
    countEmbeds (.embedCall ts :: tr) = countEmbeds tr + 1 := rfl

theorem processBatch_ok {V : Type} (table : String) (vs : List V)
    (storeResp : Except String PyVal) (b : List SeedDoc) (hb : b ≠ [])
    (hval : b.any docInvalid = false) :
    processBatch table (.ok vs) storeResp b =
      (.embedCall (b.map SeedDoc.text) :: (insertStore (mkItems table b vs) storeResp).1,
        false, [(insertStore (mkItems table b vs) storeResp).2]) := by
  have h1 : b.isEmpty = false := List.isEmpty_eq_false.mpr hb
  simp [processBatch, h1, hval]

theorem processBatch_err {V : Type} (table : String) (e : String)
    (storeResp : Except String PyVal) (b : List SeedDoc) (hb : b ≠ [])
    (hval : b.any docInvalid = false) :
    processBatch (V := V) table (.error e) storeResp b =
      ([.embedCall (b.map SeedDoc.text)], true, []) := by
  have h1 : b.isEmpty = false := List.isEmpty_eq_false.mpr hb
  simp [processBatch, h1, hval]

theorem processBatch_counts_zero {V : Type} (table : String)
    (er : Except String (List V)) (sr : Except String PyVal) (b : List SeedDoc) :
    countCloses (processBatch table er sr b).1 = 0 ∧
    countConnects (processBatch table er sr b).1 = 0 := by
  unfold processBatch
  split
  · exact ⟨rfl, rfl⟩
  · split
    · exact ⟨rfl, rfl⟩
    · cases er with
      | error e => exact ⟨rfl, rfl⟩
      | ok embeds =>
        constructor
        · show countCloses ([SeedEvent.embedCall (b.map SeedDoc.text)] ++
            (insertStore (mkItems table b embeds) sr).1) = 0
          rw [countCloses_append, (insertStore_events (mkItems table b embeds) sr).2.2.2]
          rfl
        · show countConnects ([SeedEvent.embedCall (b.map SeedDoc.text)] ++
            (insertStore (mkItems table b embeds) sr).1) = 0
          rw [countConnects_append, (insertStore_events (mkItems table b embeds) sr).2.2.1]
          rfl

theorem seedGo_cons_ok {V : Type} (table : String)
    (embedO : Nat → Except String (List V)) (storeO : Nat → Except String PyVal)
    (i : Nat) (b : List SeedDoc) (bs : List (List SeedDoc)) (vs : List V)
    (hvs : embedO i = .ok vs) (hb : b ≠ []) (hval : b.any docInvalid = false) :
    seedGo table embedO storeO i (b :: bs) =
      ⟨.embedCall (b.map SeedDoc.text) ::
          ((insertStore (mkItems table b vs) (storeO i)).1 ++
            (seedGo table embedO storeO (i + 1) bs).trace),
        (seedGo table embedO storeO (i + 1) bs).raised,
        (insertStore (mkItems table b vs) (storeO i)).2 ::
          (seedGo table embedO storeO (i + 1) bs).results⟩ := by
  simp only [seedGo]
  rw [hvs, processBatch_ok table vs (storeO i) b hb hval]
  simp

theorem seedGo_counts_zero {V : Type} (table : String)
    (embedO : Nat → Except String (List V)) (storeO : Nat → Except String PyVal) :
    ∀ (bs : List (List SeedDoc)) (i : Nat),
      countCloses (seedGo table embedO storeO i bs).trace = 0 ∧
      countConnects (seedGo table embedO storeO i bs).trace = 0 := by
  intro bs
  induction bs with
  | nil => intro i; exact ⟨rfl, rfl⟩
  | cons b bs ih =>
    intro i
    simp only [seedGo]
    split
    · exact processBatch_counts_zero table (embedO i) (storeO i) b
    · constructor
      · rw [countCloses_append,
          (processBatch_counts_zero table (embedO i) (storeO i) b).1, (ih (i + 1)).1]
      · rw [countConnects_append,
          (processBatch_counts_zero table (embedO i) (storeO i) b).2, (ih (i + 1)).2]

theorem seedGo_ok {V : Type} (table : String)
    (embedO : Nat → Except String (List V)) (storeO : Nat → Except String PyVal)
    (hE : ∀ i, ∃ vs, embedO i = .ok vs) :
    ∀ (bs : List (List SeedDoc)) (i : Nat),
      (∀ b ∈ bs, b ≠ [] ∧ b.any docInvalid = false) →
      (seedGo table embedO storeO i bs).raised = false ∧
      embedSizes (seedGo table embedO storeO i bs).trace = bs.map List.length ∧
      countUpserts (seedGo table embedO storeO i bs).trace = bs.length ∧
      (seedGo table embedO storeO i bs).results =
        (List.range bs.length).map (fun j =>
          if storeRespFails (storeO (i + j)) then BatchResult.failedB
          else BatchResult.okB) := by
  intro bs
  induction bs with
  | nil =>
    intro i h
    exact ⟨rfl, rfl, rfl, rfl⟩
  | cons b bs ih =>
    intro i h
    obtain ⟨vs, hvs⟩ := hE i
    have hb := h b (List.mem_cons_self b bs)
    have hrest := ih (i + 1) (fun b' hb' => h b' (List.mem_cons_of_mem b hb'))
    have hins := insertStore_events (mkItems table b vs) (storeO i)
    rw [seedGo_cons_ok table embedO storeO i b bs vs hvs hb.1 hb.2]
    refine ⟨hrest.1, ?_, ?_, ?_⟩
    · rw [embedSizes_cons_embedCall, embedSizes_append, hins.1, List.nil_append,
        hrest.2.1, List.length_map, List.map_cons]
    · rw [countUpserts_cons_embedCall, countUpserts_append, hins.2.1, hrest.2.2.1,
        List.length_cons]
      omega
    · rw [insertStore_result, hrest.2.2.2]
      show (if storeRespFails (storeO i) = true then BatchResult.failedB
            else BatchResult.okB) ::
          List.map (fun j => if storeRespFails (storeO (i + 1 + j)) = true
            then BatchResult.failedB else BatchResult.okB) (List.range bs.length) =
        List.map (fun j => if storeRespFails (storeO (i + j)) = true
          then BatchResult.failedB else BatchResult.okB) (List.range (bs.length + 1))
      rw [List.range_succ_eq_map, List.map_cons, List.map_map, Nat.add_zero]
      congr 1
      apply List.map_congr_left
      intro j hj
      simp only [Function.comp_apply]
      rw [show i + 1 + j = i + Nat.succ j by omega]

theorem seedGo_abort {V : Type} (table : String)
    (embedO : Nat → Except String (List V)) (storeO : Nat → Except String PyVal)
    (e : String) :
    ∀ (j : Nat) (bs : List (List SeedDoc)) (i : Nat),
      (∀ b ∈ bs, b ≠ [] ∧ b.any docInvalid = false) →
      (∀ t, t < j → ∃ vs, embedO (i + t) = .ok vs) →
      embedO (i + j) = .error e →
      j < bs.length →
      (seedGo table embedO storeO i bs).raised = true ∧
      countEmbeds (seedGo table embedO storeO i bs).trace = j + 1 ∧
      countUpserts (seedGo table embedO storeO i bs).trace = j ∧
      (seedGo table embedO storeO i bs).results.length = j := by
  intro j
  induction j with
  | zero =>
    intro bs i h hprev herr hlen
    cases bs with
    | nil => simp at hlen
    | cons b bs =>
      have hb := h b (List.mem_cons_self b bs)
      rw [Nat.add_zero] at herr
      simp only [seedGo]
      rw [herr, processBatch_err table e (storeO i) b hb.1 hb.2]
      exact ⟨rfl, rfl, rfl, rfl⟩
  | succ j ihj =>
    intro bs i h hprev herr hlen
    cases bs with
    | nil => simp at hlen
    | cons b bs =>
      have hb := h b (List.mem_cons_self b bs)
      obtain ⟨vs, hvs0⟩ := hprev 0 (Nat.succ_pos j)
      rw [Nat.add_zero] at hvs0
      have hins := insertStore_events (mkItems table b vs) (storeO i)
      have hrest := ihj bs (i + 1) (fun b' hb' => h b' (List.mem_cons_of_mem b hb'))
        (fun t ht => by
          have h2 := hprev (t + 1) (by omega)
          rwa [show i + (t + 1) = i + 1 + t by omega] at h2)
        (by rwa [show i + 1 + j = i + (j + 1) by omega])
        (by
          rw [List.length_cons] at hlen
          omega)
      rw [seedGo_cons_ok table embedO storeO i b bs vs hvs0 hb.1 hb.2]
      refine ⟨hrest.1, ?_, ?_, ?_⟩
      · rw [countEmbeds_cons_embedCall, countEmbeds_append]
        rw [countEmbeds_def, hins.1]
        rw [hrest.2.1]
        simp
      · rw [countUpserts_cons_embedCall, countUpserts_append, hins.2.1, hrest.2.2.1]
        omega
      · rw [List.length_cons, hrest.2.2.2]

theorem seedRun_components {V : Type} (table : String) (c : Nat) (docs : List SeedDoc)
    (embedO : Nat → Except String (List V)) (storeO : Nat → Except String PyVal) :
    (seedRun table c docs embedO storeO).raised =
      (seedGo table embedO storeO 0 (chunkBatches c [] docs)).raised ∧
    (seedRun table c docs embedO storeO).results =
      (seedGo table embedO storeO 0 (chunkBatches c [] docs)).results ∧
    (seedRun table c docs embedO storeO).trace =
      [SeedEvent.connect, SeedEvent.signin, SeedEvent.useNs, SeedEvent.query,
        SeedEvent.query] ++
        (seedGo table embedO storeO 0 (chunkBatches c [] docs)).trace ++
        (if (seedGo table embedO storeO 0 (chunkBatches c [] docs)).raised then []
          else [SeedEvent.query]) :=
  ⟨rfl, rfl, rfl⟩

theorem countEmbeds_pre {V : Type} :
    countEmbeds ([SeedEvent.connect, SeedEvent.signin, SeedEvent.useNs,
      SeedEvent.query, SeedEvent.query] : List (SeedEvent V)) = 0 := rfl

theorem countEmbeds_post {V : Type} :
    countEmbeds ([SeedEvent.query] : List (SeedEvent V)) = 0 := rfl

theorem countUpserts_pre {V : Type} :
    countUpserts ([SeedEvent.connect, SeedEvent.signin, SeedEvent.useNs,
      SeedEvent.query, SeedEvent.query] : List (SeedEvent V)) = 0 := rfl

theorem countUpserts_post {V : Type} :
    countUpserts ([SeedEvent.query] : List (SeedEvent V)) = 0 := rfl

theorem embedSizes_pre {V : Type} :
    embedSizes ([SeedEvent.connect, SeedEvent.signin, SeedEvent.useNs,
      SeedEvent.query, SeedEvent.query] : List (SeedEvent V)) = [] := rfl

theorem embedSizes_post {V : Type} :
    embedSizes ([SeedEvent.query] : List (SeedEvent V)) = [] := rfl

theorem countConnects_pre {V : Type} :
    countConnects ([SeedEvent.connect, SeedEvent.signin, SeedEvent.useNs,
      SeedEvent.query, SeedEvent.query] : List (SeedEvent V)) = 1 := rfl

theorem countCloses_pre {V : Type} :
    countCloses ([SeedEvent.connect, SeedEvent.signin, SeedEvent.useNs,
      SeedEvent.query, SeedEvent.query] : List (SeedEvent V)) = 0 := rfl

theorem seedRun_ok {V : Type} (table : String) (c : Nat) (docs : List SeedDoc)
    (embedO : Nat → Except String (List V)) (storeO : Nat → Except String PyVal)
    (hc : 1 ≤ c) (hval : ∀ d ∈ docs, docInvalid d = false)
    (hE : ∀ i, ∃ vs, embedO i = .ok vs) :
    (seedRun table c docs embedO storeO).raised = false ∧
    countEmbeds (seedRun table c docs embedO storeO).trace =
      (docs.length + c - 1) / c ∧
    countUpserts (seedRun table c docs embedO storeO).trace =
      (docs.length + c - 1) / c ∧
    embedSizes (seedRun table c docs embedO storeO).trace = batchSizes c docs.length ∧
    (seedRun table c docs embedO storeO).results =
      (List.range ((docs.length + c - 1) / c)).map (fun j =>
        if storeRespFails (storeO j) then BatchResult.failedB else BatchResult.okB) := by
  have hbs : ∀ b ∈ chunkBatches c [] docs, b ≠ [] ∧ b.any docInvalid = false := by
    intro b hb
    refine ⟨ne_nil_of_mem_chunkBatches c docs [] b hb, ?_⟩
    rw [List.any_eq_false]
    intro d hd
    have hv := hval d (mem_docs_of_mem_chunkBatches c docs b d hb hd)
    simp [hv]
  have hgo := seedGo_ok table embedO storeO hE (chunkBatches c [] docs) 0 hbs
  have hmap := map_length_chunkBatches c (by omega) docs [] (by simpa using hc)
  simp only [List.length_nil, Nat.zero_add] at hmap
  have hlen : (chunkBatches c [] docs).length = (docs.length + c - 1) / c := by
    have h2 := congrArg List.length hmap
    rwa [List.length_map, length_batchSizes c (by omega)] at h2
  obtain ⟨hr, hres, htr⟩ := seedRun_components table c docs embedO storeO
  refine ⟨?_, ?_, ?_, ?_, ?_⟩
  · rw [hr]
    exact hgo.1
  · rw [htr, hgo.1]
    simp only [Bool.false_eq_true, if_false]
    rw [countEmbeds_append, countEmbeds_append, countEmbeds_pre, countEmbeds_post]
    rw [countEmbeds_def, hgo.2.1, List.length_map, hlen]
    omega
  · rw [htr, hgo.1]
    simp only [Bool.false_eq_true, if_false]
    rw [countUpserts_append, countUpserts_append, countUpserts_pre, countUpserts_post]
    rw [hgo.2.2.1, hlen]
    omega
  · rw [htr, hgo.1]
    simp only [Bool.false_eq_true, if_false]
    rw [embedSizes_append, embedSizes_append, embedSizes_pre, embedSizes_post,
      hgo.2.1, hmap]
    simp
  · rw [hres, hgo.2.2.2, hlen]
    apply List.map_congr_left
    intro j hj
    rw [Nat.zero_add]

/-- Claim C1: over a non-empty parsed bulk source of `n` valid records
with batch size `c ≥ 1` and a responsive embedding provider, a seed run
issues exactly `⌈n/c⌉` embedding-provider calls and exactly `⌈n/c⌉` store
upsert calls, and the embedding-call sizes are `c, c, …, c` followed by a
final (possibly shorter) batch of `n - (⌈n/c⌉ - 1)·c` records. -/
theorem claim_C1_seed_call_counts {V : Type} (table : String) (c : Nat)
    (docs : List SeedDoc) (embedO : Nat → Except String (List V))
    (storeO : Nat → Except String PyVal) (hc : 1 ≤ c) (hd : docs ≠ [])
    (hval : ∀ d ∈ docs, docInvalid d = false)
    (hE : ∀ i, ∃ vs, embedO i = .ok vs) :
    countEmbeds (seedRun table c docs embedO storeO).trace =
      (docs.length + c - 1) / c ∧
    countUpserts (seedRun table c docs embedO storeO).trace =
      (docs.length + c - 1) / c ∧
    embedSizes (seedRun table c docs embedO storeO).trace =
      List.replicate ((docs.length + c - 1) / c - 1) c ++
        [docs.length - ((docs.length + c - 1) / c - 1) * c] := by
  have h := seedRun_ok table c docs embedO storeO hc hval hE
  refine ⟨h.2.1, h.2.2.1, ?_⟩
  rw [h.2.2.2.1]
  exact batchSizes_eq_replicate c docs.length (by omega)
    (List.length_pos.mpr hd)

/-- Witness for C1: batch size 2 over the three records
`k:1/a, k:2/b, k:3/c` issues exactly 2 embedding calls of sizes 2 and 1
and exactly 2 upsert calls. -/
theorem claim_C1_witness :
    countEmbeds (seedRun (V := Nat) "knowledge" 2
      [⟨"k:1", "a"⟩, ⟨"k:2", "b"⟩, ⟨"k:3", "c"⟩]
      (fun _ => .ok [0, 0]) (fun _ => .ok (.list []))).trace = 2 ∧
    countUpserts (seedRun (V := Nat) "knowledge" 2
      [⟨"k:1", "a"⟩, ⟨"k:2", "b"⟩, ⟨"k:3", "c"⟩]
      (fun _ => .ok [0, 0]) (fun _ => .ok (.list []))).trace = 2 ∧
    embedSizes (seedRun (V := Nat) "knowledge" 2
      [⟨"k:1", "a"⟩, ⟨"k:2", "b"⟩, ⟨"k:3", "c"⟩]
      (fun _ => .ok [0, 0]) (fun _ => .ok (.list []))).trace = [2, 1] :=
  claim_C1_seed_call_counts "knowledge" 2
    [⟨"k:1", "a"⟩, ⟨"k:2", "b"⟩, ⟨"k:3", "c"⟩]
    (fun _ => .ok [0, 0]) (fun _ => .ok (.list [])) (by omega) (by decide)
    (by decide) (fun i => ⟨[0, 0], rfl⟩)

theorem seedRun_abort {V : Type} (table : String) (c : Nat) (docs : List SeedDoc)
    (embedO : Nat → Except String (List V)) (storeO : Nat → Except String PyVal)
    (e : String) (j : Nat) (hc : 1 ≤ c)
    (hval : ∀ d ∈ docs, docInvalid d = false)
    (hprev : ∀ t, t < j → ∃ vs, embedO t = .ok vs)
    (herr : embedO j = .error e)
    (hj : j < (docs.length + c - 1) / c) :
    (seedRun table c docs embedO storeO).raised = true ∧
    countEmbeds (seedRun table c docs embedO storeO).trace = j + 1 ∧
    countUpserts (seedRun table c docs embedO storeO).trace = j ∧
    (seedRun table c docs embedO storeO).results.length = j := by
  have hbs : ∀ b ∈ chunkBatches c [] docs, b ≠ [] ∧ b.any docInvalid = false := by
    intro b hb
    refine ⟨ne_nil_of_mem_chunkBatches c docs [] b hb, ?_⟩
    rw [List.any_eq_false]
    intro d hd
    have hv := hval d (mem_docs_of_mem_chunkBatches c docs b d hb hd)
    simp [hv]
  have hmap := map_length_chunkBatches c (by omega) docs [] (by simpa using hc)
  simp only [List.length_nil, Nat.zero_add] at hmap
  have hlen : (chunkBatches c [] docs).length = (docs.length + c - 1) / c := by
    have h2 := congrArg List.length hmap
    rwa [List.length_map, length_batchSizes c (by omega)] at h2
  have hgo := seedGo_abort table embedO storeO e j (chunkBatches c [] docs) 0 hbs
    (fun t ht => by
      have := hprev t ht
      rwa [Nat.zero_add])
    (by rwa [Nat.zero_add])
    (by omega)
  obtain ⟨hr, hres, htr⟩ := seedRun_components table c docs embedO storeO
  refine ⟨?_, ?_, ?_, ?_⟩
  · rw [hr]
    exact hgo.1
  · rw [htr, hgo.1]
    simp only [if_true]
    rw [countEmbeds_append, countEmbeds_append, countEmbeds_pre, hgo.2.1]
    simp [countEmbeds_def, embedSizes]
  · rw [htr, hgo.1]
    simp only [if_true]
    rw [countUpserts_append, countUpserts_append, countUpserts_pre, hgo.2.2.1]
    simp [countUpserts]
  · rw [hres]
    exact hgo.2.2.2

theorem chunkFileBatches_first (c : Nat) :
    ∀ (ds : List SeedFileDoc) (a : SeedFileDoc) (acc : List SeedFileDoc),
      ∃ t bs, chunkFileBatches c (a :: acc) ds = ((a :: acc) ++ t) :: bs := by
  intro ds
  induction ds with
  | nil =>
    intro a acc
    exact ⟨[], [], by simp [chunkFileBatches]⟩
  | cons d ds ih =>
    intro a acc
    simp only [chunkFileBatches]
    by_cases hl : ((a :: acc) ++ [d]).length = c
    · refine ⟨[d], chunkFileBatches c [] ds, ?_⟩
      rw [if_pos hl]
    · obtain ⟨t, bs, hbs⟩ := ih a (acc ++ [d])
      refine ⟨[d] ++ t, bs, ?_⟩
      rw [if_neg hl]
      rw [show (a :: acc) ++ [d] = a :: (acc ++ [d]) from by simp]
      rw [hbs]
      simp

theorem seedFilesRun_abort_first_read {V : Type} (table : String) (c : Nat)
    (root : Option String) (d : SeedFileDoc) (ds : List SeedFileDoc)
    (fileO : String → Except String String) (embedO : Nat → Except String (List V))
    (storeO : Nat → Except String PyVal) (e : String)
    (hf : fileO (resolvePath root d.filename) = .error e) :
    (seedFilesRun table c root (d :: ds) fileO embedO storeO).raised = true ∧
    countEmbeds (seedFilesRun table c root (d :: ds) fileO embedO storeO).trace = 0 ∧
    countUpserts (seedFilesRun table c root (d :: ds) fileO embedO storeO).trace = 0 ∧
    (seedFilesRun table c root (d :: ds) fileO embedO storeO).results = [] := by
  have hfirst : ∃ t bs2, chunkFileBatches c [] (d :: ds) = (d :: t) :: bs2 := by
    simp only [chunkFileBatches, List.nil_append]
    by_cases hl : ([d] : List SeedFileDoc).length = c
    · rw [if_pos hl]
      exact ⟨[], chunkFileBatches c [] ds, rfl⟩
    · rw [if_neg hl]
      obtain ⟨t, bs2, h2⟩ := chunkFileBatches_first c ds d []
      exact ⟨t, bs2, h2⟩
  obtain ⟨t, bs2, hcb⟩ := hfirst
  have hread : readBatch fileO root (d :: t) = .error e := by
    unfold readBatch
    rw [hf]
  have hgo : seedFilesGo table root fileO embedO storeO 0 (chunkFileBatches c [] (d :: ds)) =
      ⟨[], true, []⟩ := by
    rw [hcb]
    simp only [seedFilesGo]
    rw [hread]
  refine ⟨?_, ?_, ?_, ?_⟩
  · show (seedFilesGo table root fileO embedO storeO 0
      (chunkFileBatches c [] (d :: ds))).raised = true
    rw [hgo]
  · show countEmbeds ([SeedEvent.connect, SeedEvent.signin, SeedEvent.useNs,
      SeedEvent.query, SeedEvent.query] ++
      (seedFilesGo table root fileO embedO storeO 0
        (chunkFileBatches c [] (d :: ds))).trace ++
      (if (seedFilesGo table root fileO embedO storeO 0
        (chunkFileBatches c [] (d :: ds))).raised then [] else [SeedEvent.query])) = 0
    rw [hgo]
    rfl
  · show countUpserts ([SeedEvent.connect, SeedEvent.signin, SeedEvent.useNs,
      SeedEvent.query, SeedEvent.query] ++
      (seedFilesGo table root fileO embedO storeO 0
        (chunkFileBatches c [] (d :: ds))).trace ++
      (if (seedFilesGo table root fileO embedO storeO 0
        (chunkFileBatches c [] (d :: ds))).raised then [] else [SeedEvent.query])) = 0
    rw [hgo]
    rfl
  · show (seedFilesGo table root fileO embedO storeO 0
      (chunkFileBatches c [] (d :: ds))).results = []
    rw [hgo]

/-- Counterexample to claim C2 as stated: with two batches pending, an
embedding-provider error on the first batch escapes `Vec.insert` and
aborts the whole seed run — only one embedding call is issued, no upsert
happens, no batch result is recorded, and the second batch is never
processed. -/
theorem claim_C2_counterexample :
    (chunkBatches 2 [] [⟨"k:1", "a"⟩, ⟨"k:2", "b"⟩, ⟨"k:3", "c"⟩]).length = 2 ∧
    (seedRun (V := Nat) "knowledge" 2 [⟨"k:1", "a"⟩, ⟨"k:2", "b"⟩, ⟨"k:3", "c"⟩]
      (fun _ => .error "APIError") (fun _ => .ok (.list []))).raised = true ∧
    countEmbeds (seedRun (V := Nat) "knowledge" 2
      [⟨"k:1", "a"⟩, ⟨"k:2", "b"⟩, ⟨"k:3", "c"⟩]
      (fun _ => .error "APIError") (fun _ => .ok (.list []))).trace = 1 ∧
    countUpserts (seedRun (V := Nat) "knowledge" 2
      [⟨"k:1", "a"⟩, ⟨"k:2", "b"⟩, ⟨"k:3", "c"⟩]
      (fun _ => .error "APIError") (fun _ => .ok (.list []))).trace = 0 ∧
    (seedRun (V := Nat) "knowledge" 2 [⟨"k:1", "a"⟩, ⟨"k:2", "b"⟩, ⟨"k:3", "c"⟩]
      (fun _ => .error "APIError") (fun _ => .ok (.list []))).results = [] :=
  ⟨rfl, rfl, rfl, rfl, rfl⟩

/-- Claim C2 as amended: a store-write failure on a batch is caught inside
`Vec.insert`, recorded as a failed batch result, and the run continues to
the end of the source; but an embedding-provider error aborts the run at
that batch (later batches unprocessed), and a file-read error in `files`
mode aborts the run before any call of that batch. -/
theorem claim_C2_amended_failure_semantics {V : Type} :
    (∀ (table : String) (c : Nat) (docs : List SeedDoc)
        (embedO : Nat → Except String (List V)) (storeO : Nat → Except String PyVal),
      1 ≤ c → (∀ d ∈ docs, docInvalid d = false) →
      (∀ i, ∃ vs, embedO i = .ok vs) →
      (seedRun table c docs embedO storeO).raised = false ∧
      countEmbeds (seedRun table c docs embedO storeO).trace =
        (docs.length + c - 1) / c ∧
      (seedRun table c docs embedO storeO).results =
        (List.range ((docs.length + c - 1) / c)).map (fun j =>
          if storeRespFails (storeO j) then BatchResult.failedB
          else BatchResult.okB)) ∧
    (∀ (table : String) (c : Nat) (docs : List SeedDoc)
        (embedO : Nat → Except String (List V)) (storeO : Nat → Except String PyVal)
        (e : String) (j : Nat),
      1 ≤ c → (∀ d ∈ docs, docInvalid d = false) →
      (∀ t, t < j → ∃ vs, embedO t = .ok vs) → embedO j = .error e →
      j < (docs.length + c - 1) / c →
      (seedRun table c docs embedO storeO).raised = true ∧
      countEmbeds (seedRun table c docs embedO storeO).trace = j + 1 ∧
      (seedRun table c docs embedO storeO).results.length = j) ∧
    (∀ (table : String) (c : Nat) (root : Option String) (d : SeedFileDoc)
        (ds : List SeedFileDoc) (fileO : String → Except String String)
        (embedO : Nat → Except String (List V)) (storeO : Nat → Except String PyVal)
        (e : String),
      fileO (resolvePath root d.filename) = .error e →
      (seedFilesRun table c root (d :: ds) fileO embedO storeO).raised = true ∧
      countEmbeds (seedFilesRun table c root (d :: ds) fileO embedO storeO).trace = 0 ∧
      (seedFilesRun table c root (d :: ds) fileO embedO storeO).results = []) := by
  refine ⟨fun table c docs embedO storeO hc hval hE => ?_,
    fun table c docs embedO storeO e j hc hval hprev herr hj => ?_,
    fun table c root d ds fileO embedO storeO e hf => ?_⟩
  · have h := seedRun_ok table c docs embedO storeO hc hval hE
    exact ⟨h.1, h.2.1, h.2.2.2.2⟩
  · have h := seedRun_abort table c docs embedO storeO e j hc hval hprev herr hj
    exact ⟨h.1, h.2.1, h.2.2.2⟩
  · have h := seedFilesRun_abort_first_read table c root d ds fileO embedO storeO e hf
    exact ⟨h.1, h.2.1, h.2.2.2⟩

/-- Witness for C2 (amended): a run whose first store write fails still
completes with results `[failed, ok]`; a run whose first embedding call
fails aborts after one embedding call; a files run whose first read fails
aborts with no calls. -/
theorem claim_C2_witness :
    ((seedRun (V := Nat) "knowledge" 2 [⟨"k:1", "a"⟩, ⟨"k:2", "b"⟩, ⟨"k:3", "c"⟩]
        (fun _ => .ok [0, 0])
        (fun i => if i = 0 then .error "db down" else .ok (.list []))).raised = false ∧
      countEmbeds (seedRun (V := Nat) "knowledge" 2
        [⟨"k:1", "a"⟩, ⟨"k:2", "b"⟩, ⟨"k:3", "c"⟩] (fun _ => .ok [0, 0])
        (fun i => if i = 0 then .error "db down" else .ok (.list []))).trace = 2 ∧
      (seedRun (V := Nat) "knowledge" 2 [⟨"k:1", "a"⟩, ⟨"k:2", "b"⟩, ⟨"k:3", "c"⟩]
        (fun _ => .ok [0, 0])
        (fun i => if i = 0 then .error "db down" else .ok (.list []))).results =
        [.failedB, .okB]) ∧
    ((seedRun (V := Nat) "knowledge" 2 [⟨"k:1", "a"⟩, ⟨"k:2", "b"⟩, ⟨"k:3", "c"⟩]
        (fun _ => .error "APIError") (fun _ => .ok (.list []))).raised = true ∧
      countEmbeds (seedRun (V := Nat) "knowledge" 2
        [⟨"k:1", "a"⟩, ⟨"k:2", "b"⟩, ⟨"k:3", "c"⟩]
        (fun _ => .error "APIError") (fun _ => .ok (.list []))).trace = 1 ∧
      (seedRun (V := Nat) "knowledge" 2 [⟨"k:1", "a"⟩, ⟨"k:2", "b"⟩, ⟨"k:3", "c"⟩]
        (fun _ => .error "APIError") (fun _ => .ok (.list []))).results.length = 0) ∧
    ((seedFilesRun (V := Nat) "knowledge" 2 (some "root") [⟨"1", "f1"⟩]
        (fun _ => .error "IOError") (fun _ => .ok [0])
        (fun _ => .ok (.list []))).raised = true ∧
      countEmbeds (seedFilesRun (V := Nat) "knowledge" 2 (some "root") [⟨"1", "f1"⟩]
        (fun _ => .error "IOError") (fun _ => .ok [0])
        (fun _ => .ok (.list []))).trace = 0 ∧
      (seedFilesRun (V := Nat) "knowledge" 2 (some "root") [⟨"1", "f1"⟩]
        (fun _ => .error "IOError") (fun _ => .ok [0])
        (fun _ => .ok (.list []))).results = []) :=
  ⟨(claim_C2_amended_failure_semantics (V := Nat)).1 "knowledge" 2
      [⟨"k:1", "a"⟩, ⟨"k:2", "b"⟩, ⟨"k:3", "c"⟩] (fun _ => .ok [0, 0])
      (fun i => if i = 0 then .error "db down" else .ok (.list []))
      (by omega) (by decide) (fun i => ⟨[0, 0], rfl⟩),
    (claim_C2_amended_failure_semantics (V := Nat)).2.1 "knowledge" 2
      [⟨"k:1", "a"⟩, ⟨"k:2", "b"⟩, ⟨"k:3", "c"⟩] (fun _ => .error "APIError")
      (fun _ => .ok (.list [])) "APIError" 0 (by omega) (by decide)
      (fun t ht => absurd ht (Nat.not_lt_zero t)) rfl (by decide),
    (claim_C2_amended_failure_semantics (V := Nat)).2.2 "knowledge" 2 (some "root")
      ⟨"1", "f1"⟩ [] (fun _ => .error "IOError") (fun _ => .ok [0])
      (fun _ => .ok (.list [])) "IOError" rfl⟩

/-- Counterexample to claim C8 as stated: a fully successful seed run
opens one store connection and never closes it — `Vec.seed` contains no
`db.close()` on any path. -/
theorem claim_C8_counterexample :
    (seedRun (V := Nat) "knowledge" 1 [⟨"k:1", "a"⟩] (fun _ => .ok [0])
      (fun _ => .ok (.list []))).raised = false ∧
    countConnects (seedRun (V := Nat) "knowledge" 1 [⟨"k:1", "a"⟩]
      (fun _ => .ok [0]) (fun _ => .ok (.list []))).trace = 1 ∧
    countCloses (seedRun (V := Nat) "knowledge" 1 [⟨"k:1", "a"⟩]
      (fun _ => .ok [0]) (fun _ => .ok (.list []))).trace = 0 :=
  ⟨rfl, rfl, rfl⟩

/-- Claim C8 as amended: `Vec.seed` opens exactly one connection per run
and never closes it, on any inputs; `Vec.get_context` closes its
connection on every exit path once connect/sign-in/namespace selection
have succeeded (the query sits in a `try/finally` whose `finally`
closes); but a `get_context` run failing at the sign-in step leaves its
freshly opened connection unclosed. -/
theorem claim_C8_amended_connection_release {V : Type} :
    (∀ (table : String) (c : Nat) (docs : List SeedDoc)
        (embedO : Nat → Except String (List V)) (storeO : Nat → Except String PyVal),
      countConnects (seedRun table c docs embedO storeO).trace = 1 ∧
      countCloses (seedRun table c docs embedO storeO).trace = 0) ∧
    (∀ (question : String) (v : V) (vs : List V) (queryO : Except String PyVal),
      countConnects (getContextRun question (.ok (v :: vs)) (.ok ()) (.ok ())
        (.ok ()) queryO).trace = 1 ∧
      countCloses (getContextRun question (.ok (v :: vs)) (.ok ()) (.ok ())
        (.ok ()) queryO).trace = 1) ∧
    (∀ (question e : String) (v : V) (vs : List V) (useO : Except String Unit)
        (queryO : Except String PyVal),
      countConnects (getContextRun question (.ok (v :: vs)) (.ok ()) (.error e)
        useO queryO).trace = 1 ∧
      countCloses (getContextRun question (.ok (v :: vs)) (.ok ()) (.error e)
        useO queryO).trace = 0) := by
  refine ⟨fun table c docs embedO storeO => ?_,
    fun question v vs queryO => ?_, fun question e v vs useO queryO => ⟨rfl, rfl⟩⟩
  · obtain ⟨hr, hres, htr⟩ := seedRun_components table c docs embedO storeO
    have hz := seedGo_counts_zero table embedO storeO (chunkBatches c [] docs) 0
    constructor
    · rw [htr, countConnects_append, countConnects_append, countConnects_pre, hz.2]
      cases hgr : (seedGo table embedO storeO 0 (chunkBatches c [] docs)).raised
      · simp [hgr, countConnects]
      · simp [hgr, countConnects]
    · rw [htr, countCloses_append, countCloses_append, countCloses_pre, hz.1]
      cases hgr : (seedGo table embedO storeO 0 (chunkBatches c [] docs)).raised
      · simp [hgr, countCloses]
      · simp [hgr, countCloses]
  · cases queryO with
    | error e => exact ⟨rfl, rfl⟩
    | ok res => exact ⟨rfl, rfl⟩

/-- Witness for C8 (amended): a successful one-record seed run leaves the
connection count at one with zero closes; a `get_context` run with a
failing query still closes; a `get_context` run failing at sign-in leaks
its connection. -/
theorem claim_C8_witness :
    (countConnects (seedRun (V := Nat) "knowledge" 1 [⟨"k:2", "b"⟩]
        (fun _ => .ok [0]) (fun _ => .ok (.list []))).trace = 1 ∧
      countCloses (seedRun (V := Nat) "knowledge" 1 [⟨"k:2", "b"⟩]
        (fun _ => .ok [0]) (fun _ => .ok (.list []))).trace = 0) ∧
    (countConnects (getContextRun (V := Nat) "q" (.ok [0]) (.ok ()) (.ok ())
        (.ok ()) (.error "boom")).trace = 1 ∧
      countCloses (getContextRun (V := Nat) "q" (.ok [0]) (.ok ()) (.ok ())
        (.ok ()) (.error "boom")).trace = 1) ∧
    (countConnects (getContextRun (V := Nat) "q" (.ok [0]) (.ok ())
        (.error "auth failed") (.ok ()) (.ok (.list []))).trace = 1 ∧
      countCloses (getContextRun (V := Nat) "q" (.ok [0]) (.ok ())
        (.error "auth failed") (.ok ()) (.ok (.list []))).trace = 0) :=
  ⟨(claim_C8_amended_connection_release (V := Nat)).1 "knowledge" 1 [⟨"k:2", "b"⟩]
      (fun _ => .ok [0]) (fun _ => .ok (.list [])),
    (claim_C8_amended_connection_release (V := Nat)).2.1 "q" 0 [] (.error "boom"),
    (claim_C8_amended_connection_release (V := Nat)).2.2 "q" "auth failed" 0 []
      (.ok ()) (.ok (.list []))⟩
